import Mathlib

/-!
A shallow embedding in Lean 4 of the core pipeline logic of the
AI-Instagram-Content-Generator multi-agent system (directory `Case1/app`),
together with theorems settling the frozen claims about it.

Python strings are modelled as lists of Unicode scalar values (`PyStr`).
Character-class predicates (`\w`, `str.lower`, whitespace) are modelled on
their ASCII behaviour; every concrete input used in a theorem below is
ASCII-only (or uses characters on which the model and Python agree), so no
claim depends on the approximated non-ASCII corner of these predicates.
External effects (the OpenAI client, PyTrends, the filesystem, PIL) are
modelled as explicit oracle parameters: the embedded functions take the
outcome of each external call as an input, exactly at the point where the
Python code consumes it.
-/

/-- A Python `str`: a sequence of Unicode code points. -/
abbrev PyStr := List Char

/-- Coerce a Lean string literal to the `PyStr` model. -/
def pys (s : String) : PyStr := s.toList

/-- Whitespace as recognised by `str.strip()` (ASCII portion). -/
def isPySpace (c : Char) : Bool :=
  c = ' ' ∨ c = '\t' ∨ c = '\n' ∨ c = '\r' ∨ c = '\x0b' ∨ c = '\x0c'

/-- `str.strip()`: drop leading and trailing whitespace. -/
def pyStrip (s : PyStr) : PyStr :=
  ((s.dropWhile isPySpace).reverse.dropWhile isPySpace).reverse

/-- `str.lower()` (ASCII case mapping). -/
def pyLower (s : PyStr) : PyStr := s.map Char.toLower

/-- The regex class `\w` (ASCII letters, digits, underscore; non-ASCII code
points are treated as word characters, matching Python's behaviour on the
accented letters that occur in this repository's data). -/
def isWordChar (c : Char) : Bool :=
  c.isAlphanum ∨ c = '_' ∨ 128 ≤ c.val

/-- Does `needle` occur as a contiguous substring of `hay`
(`needle in hay` / an unanchored `re.search` of a literal)? -/
def pyContains (hay needle : PyStr) : Bool :=
  match hay with
  | [] => needle.isEmpty
  | _ :: rest => needle.isPrefixOf hay || pyContains rest needle

/-! ### quality.py — `QualityControlAgent.validate_text` -/

/-- One code point of the emoji character class used by the emoji-density
check in `validate_text` (the union of the six ranges in the source). -/
def isEmojiChar (c : Char) : Bool :=
  (0x1F600 ≤ c.val ∧ c.val ≤ 0x1F64F) ∨
  (0x1F300 ≤ c.val ∧ c.val ≤ 0x1F5FF) ∨
  (0x1F680 ≤ c.val ∧ c.val ≤ 0x1F6FF) ∨
  (0x1F1E0 ≤ c.val ∧ c.val ≤ 0x1F1FF) ∨
  (0x2702 ≤ c.val ∧ c.val ≤ 0x27B0) ∨
  (0x24C2 ≤ c.val ∧ c.val ≤ 0x1F251)

/-- `len(emoji_pattern.findall(s))`: the pattern is `[emoji]+`, so `findall`
returns the maximal runs of emoji characters; we count those runs.
The second argument records whether the previous character was an emoji. -/
def emojiRunsAux : PyStr → Bool → Nat
  | [], _ => 0
  | c :: rest, inRun =>
      if isEmojiChar c then
        (if inRun then 0 else 1) + emojiRunsAux rest true
      else
        emojiRunsAux rest false

/-- Number of maximal emoji runs in a string. -/
def emojiRuns (s : PyStr) : Nat := emojiRunsAux s false

/-- The word alternatives of the banned-content pattern
`\b(spam|scam|hack|cheat|crack)\b`. -/
def bannedWords : List PyStr :=
  [pys "spam", pys "scam", pys "hack", pys "cheat", pys "crack"]

/-- Case-insensitive literal match at the head of `s`. `w` is lowercase. -/
def ciPrefix (w s : PyStr) : Bool :=
  ((s.take w.length).map Char.toLower) = w

/-- Does one of the banned words match at the head of `s`, with a word
boundary on both sides?  `prev` is the character before this position. -/
def bannedWordAt (prev : Option Char) (s : PyStr) : Bool :=
  bannedWords.any fun w =>
    ciPrefix w s &&
    (match prev with | none => true | some c => !isWordChar c) &&
    (match (s.drop w.length).head? with | none => true | some c => !isWordChar c)

/-- Scan for `\b(spam|scam|hack|cheat|crack)\b` (case-insensitive). -/
def scanBannedWords : Option Char → PyStr → Bool
  | _, [] => false
  | prev, c :: rest => bannedWordAt prev (c :: rest) || scanBannedWords (some c) rest

/-- Case-insensitive unanchored search for a lowercase literal `w`. -/
def scanCI (w : PyStr) : PyStr → Bool
  | [] => w.isEmpty
  | c :: rest => ciPrefix w (c :: rest) || scanCI w rest

/-- Scan for `@\w{15,}` (a mention of at least 15 word characters). -/
def scanMention : PyStr → Bool
  | [] => false
  | c :: rest =>
      (c = '@' && 15 ≤ (rest.takeWhile isWordChar).length) || scanMention rest

/-- The banned-content screen of `validate_text`: the three patterns
`\b(spam|scam|hack|cheat|crack)\b`, `(http|https|www\.|bit\.ly)` and
`@\w{15,}`, searched case-insensitively (matching `https` is subsumed by
matching `http`).  The Python loop breaks at the first matching pattern and
records a single issue, so only the disjunction is observable. -/
def bannedDetected (caption : PyStr) : Bool :=
  scanBannedWords none caption ||
  (scanCI (pys "http") caption || scanCI (pys "www.") caption ||
    scanCI (pys "bit.ly") caption) ||
  scanMention caption

/-- Hashtag normalisation inside the cleanup loop: force a leading `#`,
then delete every character outside `[#\w]` (`re.sub(r'[^#\w]', '', tag)`). -/
def cleanTag (tag : PyStr) : PyStr :=
  (if tag.head? = some '#' then tag else '#' :: tag).filter
    fun c => c = '#' || isWordChar c

/-- One iteration of the hashtag cleanup loop of `validate_text`.  The
Python code keeps a `seen_tags` set of lowercased tags in lockstep with
`clean_hashtags`; since the two are only ever extended together,
`seen_tags` is exactly `clean_hashtags` mapped through `lower`, and the
step carries just the accumulator list. -/
def cleanStep (acc : List PyStr) (tag : PyStr) : List PyStr :=
  if pyLower (cleanTag tag) ∉ acc.map pyLower ∧ 1 < (cleanTag tag).length then
    acc ++ [cleanTag tag]
  else acc

/-- The hashtag cleanup loop of `validate_text`. -/
def cleanTags (hashtags : List PyStr) : List PyStr :=
  hashtags.foldl cleanStep []

/-- The generic filler hashtags appended when fewer than 5 tags survive. -/
def genericTags : List PyStr :=
  [pys "#gaming", pys "#mobilegame", pys "#game", pys "#oyun", pys "#mobile"]

/-- One iteration of the generic-hashtag append loop: add the generic tag
when its lowercase form is unseen and the list still has fewer than 5
entries. -/
def genStep (acc : List PyStr) (g : PyStr) : List PyStr :=
  if pyLower g ∉ acc.map pyLower ∧ acc.length < 5 then acc ++ [g] else acc

/-- The generic-hashtag append loop of `validate_text`. -/
def addGenerics (acc : List PyStr) : List PyStr :=
  genericTags.foldl genStep acc

/-- Result record of `validate_text`. -/
structure VTResult where
  title : PyStr
  caption : PyStr
  hashtags : List PyStr
  issues : List PyStr
  is_valid : Bool
  title_length : Nat
  caption_length : Nat
  hashtag_count : Nat
  emoji_count : Nat
  deriving Repr, DecidableEq

/-- `QualityControlAgent.validate_text`.  The emoji-density comparison
`emoji_count > len(clean_caption) / 50` uses Python float division; for the
integer magnitudes involved it is exactly `50 * emoji_count > len`. -/
def validateText (title caption : PyStr) (hashtags : List PyStr) : VTResult :=
  let cleanTitle0 := pyStrip title
  let titleTrunc := 60 < cleanTitle0.length
  let cleanTitle := if titleTrunc then cleanTitle0.take 60 else cleanTitle0
  let issues1 : List PyStr :=
    if titleTrunc then [pys "Title truncated to 60 chars"] else []
  let cleanCaption0 := pyStrip caption
  let capTrunc := 2200 < cleanCaption0.length
  let cleanCaption := if capTrunc then cleanCaption0.take 2200 else cleanCaption0
  let issues2 := issues1 ++
    (if capTrunc then [pys "Caption truncated to 2200 chars"] else [])
  let emojiCount := emojiRuns cleanCaption
  let issues3 := issues2 ++
    (if 50 * emojiCount > cleanCaption.length
     then [pys "High emoji density"] else [])
  let cleaned := cleanTags hashtags
  let finalTags :=
    if 12 < cleaned.length then cleaned.take 12
    else if cleaned.length < 5 then addGenerics cleaned
    else cleaned
  let issues4 := issues3 ++
    (if 12 < cleaned.length then [pys "Hashtags limited to 12"]
     else if cleaned.length < 5 then
       [pys "Added generic hashtags to meet minimum of 5"]
     else [])
  let issues5 := issues4 ++
    (if bannedDetected cleanCaption
     then [pys "Potentially inappropriate content detected"] else [])
  { title := cleanTitle
    caption := cleanCaption
    hashtags := finalTags
    issues := issues5
    is_valid := issues5.length = 0
    title_length := cleanTitle.length
    caption_length := cleanCaption.length
    hashtag_count := finalTags.length
    emoji_count := emojiCount }

/-! ### quality.py — images and `check_quality`

File-system and PIL effects are supplied through an environment: for each
path, whether `os.path.exists` holds, what `Image.open` reports (`none`
models an exception inside `validate_image`'s `try`), and whether
`utils_media.resize_image_to_instagram` succeeds or raises. -/

/-- Per-path external-world outcome for image processing. -/
structure ImgFate where
  pathExists : Bool
  dims : Option (Nat × Nat)
  resizeOk : Bool
  deriving Repr, DecidableEq

/-- Geometry flags computed by `validate_image` that drive `process_images`
(the rational arithmetic stands in for Python floats; the 0.05 tolerance
comparison is nowhere near the float rounding error for realistic sizes). -/
structure ImgValidation where
  is_valid : Bool
  needs_resize : Bool
  needs_padding : Bool
  deriving Repr, DecidableEq

/-- `QualityControlAgent.validate_image` on an open result.  On an
exception (`none`) the `except` branch reports `needs_resize = True` and
`needs_padding = True`. -/
def validateImage (dims : Option (Nat × Nat)) : ImgValidation :=
  match dims with
  | none => { is_valid := false, needs_resize := true, needs_padding := true }
  | some (w, h) =>
      let aspect : ℚ := (w : ℚ) / (h : ℚ)
      { is_valid := 1080 ≤ w ∧ 1350 ≤ h
        needs_resize := ¬(w = 1080 ∧ h = 1350)
        needs_padding := |aspect - 4 / 5| > 1 / 20 }

/-- `os.path.basename` for `/`-separated paths. -/
def pyBasename (p : PyStr) : PyStr :=
  ((p.reverse.takeWhile (· ≠ '/')).reverse)

/-- Output path `os.path.join(output_dir, f"processed_{basename}")`. -/
def processedName (outputDir p : PyStr) : PyStr :=
  outputDir ++ pys "/processed_" ++ pyBasename p

/-- `QualityControlAgent.process_images`.  Paths failing `os.path.exists`
are skipped (`continue`); an image needing resize/padding is processed, a
resize exception is caught and the original is copied to the same output
path as a fallback, and an already-valid image is copied over directly
(`resize_image_to_instagram` returns its `output_path` argument, so all
three branches append `processedName`). -/
def processImages (env : PyStr → ImgFate) (imagePaths : List PyStr)
    (outputDir : PyStr) : List PyStr :=
  imagePaths.foldl
    (fun processed p =>
      if (env p).pathExists then
        let validation := validateImage (env p).dims
        let outputPath := processedName outputDir p
        if validation.needs_resize || validation.needs_padding then
          if (env p).resizeOk then
            processed ++ [outputPath]
          else
            processed ++ [outputPath]
        else
          processed ++ [outputPath]
      else
        processed)
    []

/-- A post candidate dict (`title`/`caption`/`hashtags`), as produced by
the generation agent and consumed by quality control. -/
structure Candidate where
  title : PyStr
  caption : PyStr
  hashtags : List PyStr
  deriving Repr, DecidableEq

/-- A validated candidate as assembled by `check_quality`. -/
structure ValidatedCandidate where
  original : Candidate
  validated_title : PyStr
  validated_caption : PyStr
  validated_hashtags : List PyStr
  validation_issues : List PyStr
  is_valid : Bool
  deriving Repr, DecidableEq

/-- Result record of `check_quality`. -/
structure QCResult where
  status : PyStr
  error : Option PyStr
  processed_count : Nat
  processed_paths : List PyStr
  validated_candidates : List ValidatedCandidate
  quality_score : ℤ
  deriving Repr, DecidableEq

/-- `QualityControlAgent.check_quality`.  `err = some e` injects an
unexpected exception inside the `try` body (the `except` path); otherwise
the success path runs: the first 10 image paths are processed, every
candidate is validated, and the quality score is
`max(0, 100 - total_issues * 10)`. -/
def checkQuality (candidates : List Candidate) (imagePaths : List PyStr)
    (outputBase : PyStr) (env : PyStr → ImgFate) (err : Option PyStr) :
    QCResult :=
  match err with
  | some e =>
      { status := pys "error", error := some e, processed_count := 0
        processed_paths := [], validated_candidates := [], quality_score := 0 }
  | none =>
      let imagesDir := outputBase ++ pys "/images"
      let processed := processImages env (imagePaths.take 10) imagesDir
      let validated := candidates.map fun c =>
        let v := validateText c.title c.caption c.hashtags
        { original := c
          validated_title := v.title
          validated_caption := v.caption
          validated_hashtags := v.hashtags
          validation_issues := v.issues
          is_valid := v.is_valid : ValidatedCandidate }
      let totalIssues : ℕ :=
        (validated.map fun vc => vc.validation_issues.length).sum
      { status := pys "success", error := none
        processed_count := processed.length
        processed_paths := processed
        validated_candidates := validated
        quality_score := max 0 (100 - (totalIssues : ℤ) * 10) }

/-! ### trend.py — `TrendAnalysisAgent` -/

/-- The regex class `\s` (ASCII portion), used by keyword normalisation. -/
def isRegexSpace (c : Char) : Bool := isPySpace c

/-- Collapse each whitespace run to a single space
(`re.sub(r'\s+', ' ', s)`). -/
def collapseSpaces : PyStr → PyStr
  | [] => []
  | c :: rest =>
      if isRegexSpace c then
        ' ' :: collapseSpaces (rest.dropWhile isRegexSpace)
      else
        c :: collapseSpaces rest
termination_by s => s.length
decreasing_by
  · exact Nat.lt_succ_of_le (List.dropWhile_sublist _).length_le
  · simp

/-- `TrendAnalysisAgent.normalize_keywords`: cap at 50 keywords; strip,
lowercase, delete characters outside `[\w\s-]`, collapse whitespace; keep
results longer than 2 characters. -/
def normalizeKeywords (keywords : List PyStr) : List PyStr :=
  ((keywords.take 50).map fun kw =>
      collapseSpaces
        ((pyLower (pyStrip kw)).filter
          fun c => isWordChar c || isRegexSpace c || c = '-')).filter
    fun cleaned => 2 < cleaned.length

/-- The fixed gaming-term vocabulary of `_fallback_score`. -/
def gamingTerms : List PyStr :=
  [pys "game", pys "play", pys "mobile", pys "online", pys "rpg",
   pys "fps", pys "mmo", pys "pvp"]

/-- `TrendAnalysisAgent._fallback_score`: base 50, length bonus, gaming-term
bonus, alphabetical-position term, clamped into `[0, 100]`.  `keyword[0]`
would raise `IndexError` on an empty keyword in Python; normalisation
guarantees length ≥ 3 on every reachable call, and the model returns the
same formula with a defaulted head there. -/
def fallbackScore (keyword : PyStr) : ℚ :=
  let base : ℚ := 50 +
    (if keyword.length ≤ 5 then 20
     else if keyword.length ≤ 8 then 10 else 0) +
    (if gamingTerms.any fun t => pyContains keyword t then 15 else 0) +
    ((((keyword.headD 'a').val.toNat : ℤ) - (('a' : Char).val.toNat : ℤ) : ℤ) : ℚ) *
      (1 / 2 : ℚ)
  min 100 (max 0 base)

/-- External-world outcomes for one `get_trend_scores` call: whether
PyTrends initialised, whether the whole loop raised (`allFail`, the outer
`except`), which 5-keyword batches raised (per-batch `except`), and the
7-day/30-day mean interest the provider reports per keyword. -/
structure TrendOracle where
  available : Bool
  allFail : Bool
  batchFail : Nat → Bool
  mean7d : PyStr → ℚ
  mean30d : PyStr → ℚ

/-- Split into consecutive batches of 5 (`keywords[i:i+5]`). -/
def batches5 (keywords : List PyStr) : List (List PyStr) :=
  (List.range ((keywords.length + 4) / 5)).map fun i =>
    (keywords.drop (5 * i)).take 5

/-- `TrendAnalysisAgent.get_trend_scores`: provider-backed scoring with
per-batch fallback, full fallback when PyTrends is unavailable or the outer
loop raises; then a stable descending sort by score and `[:15]`. -/
def getTrendScores (oracle : TrendOracle) (keywords : List PyStr) :
    List (PyStr × ℚ) :=
  let scores : List (PyStr × ℚ) :=
    if oracle.available ∧ keywords ≠ [] then
      if oracle.allFail then
        keywords.map fun kw => (kw, fallbackScore kw)
      else
        ((batches5 keywords).enum.map fun (i, batch) =>
            if oracle.batchFail i then
              batch.map fun kw => (kw, fallbackScore kw)
            else
              batch.map fun kw =>
                (kw, (7 / 10 : ℚ) * oracle.mean7d kw +
                  (3 / 10 : ℚ) * oracle.mean30d kw)).flatten
    else
      keywords.map fun kw => (kw, fallbackScore kw)
  (scores.mergeSort fun a b => b.2 ≤ a.2).take 15

/-- `keyword.replace(' ', '').replace('-', '')`. -/
def cleanKw (kw : PyStr) : PyStr := kw.filter fun c => c ≠ ' ' ∧ c ≠ '-'

/-- Insert into the model of the Python `set` if absent.  CPython iterates
a `set` in an unspecified hash order; the model fixes insertion order,
which leaves the observable cardinalities (all any claim consumes)
unchanged. -/
def setAdd (s : List PyStr) (x : PyStr) : List PyStr :=
  if x ∈ s then s else s ++ [x]

/-- One iteration of the `generate_hashtags` loop body: add the base
hashtag of a scored keyword and its score-gated variants to the set. -/
def hashtagStep (s : List PyStr) (p : PyStr × ℚ) : List PyStr :=
  let ck := cleanKw p.1
  let s := setAdd s ('#' :: ck)
  let s :=
    if 50 < p.2 then
      setAdd (setAdd s ('#' :: (ck ++ pys "game"))) (pys "#mobile" ++ ck)
    else s
  if 70 < p.2 then
    setAdd (setAdd s ('#' :: (ck ++ pys "gaming"))) ('#' :: (ck ++ pys "tr"))
  else s

/-- The `generate_hashtags` loop with its early exit once 20 tags exist. -/
def hashtagLoop (s : List PyStr) : List (PyStr × ℚ) → List PyStr
  | [] => s
  | p :: rest =>
      let s' := hashtagStep s p
      if 20 ≤ s'.length then s' else hashtagLoop s' rest

/-- `TrendAnalysisAgent.generate_hashtags`: per scored keyword add the base
hashtag and score-gated variants, stop once the set holds 20, return
`list(set)[:20]`. -/
def generateHashtags (scored : List (PyStr × ℚ)) : List PyStr :=
  (hashtagLoop [] scored).take 20

/-- Result record of `TrendAnalysisAgent.analyze`. -/
structure TrendResult where
  status : PyStr
  error : Option PyStr
  keywords_analyzed : Nat
  top_keywords : List (PyStr × ℚ)
  hashtags : List PyStr
  deriving Repr

/-- The sample keywords used when the ASO file cannot be read. -/
def sampleKeywords : List PyStr :=
  [pys "mobile game", pys "rpg", pys "action", pys "adventure",
   pys "strategy", pys "puzzle", pys "casual", pys "multiplayer",
   pys "online", pys "battle"]

/-- Python `str.split(sep)` for a one-character separator. -/
def pySplit (sep : Char) (s : PyStr) : List PyStr := s.splitOn sep

/-- `TrendAnalysisAgent.analyze`.  `fileContent = none` models a failed
read of the keyword file (sample keywords are used); `err = some e` injects
an exception escaping the body into the top-level `except`, which reports
an empty keyword list and the fixed default hashtags. -/
def trendAnalyze (oracle : TrendOracle) (fileContent : Option PyStr)
    (err : Option PyStr) : TrendResult :=
  match err with
  | some e =>
      { status := pys "error", error := some e, keywords_analyzed := 0
        top_keywords := []
        hashtags := [pys "#mobilegame", pys "#gaming", pys "#game",
          pys "#play", pys "#fun"] }
  | none =>
      let keywords :=
        match fileContent with
        | none => sampleKeywords
        | some content =>
            if ',' ∈ content then pySplit ',' content
            else pySplit '\n' content
      let normalized := normalizeKeywords keywords
      let scored := getTrendScores oracle normalized
      { status := pys "success", error := none
        keywords_analyzed := normalized.length
        top_keywords := scored
        hashtags := generateHashtags scored }

/-! ### generate.py — `ContentGenerationAgent` -/

/-- Hand-authored fallback template (template1) of `fallback_generation`,
transcribed verbatim from the source. -/
def template1 : Candidate where
  title := pys "🎮 En Yeni Mobil Oyun Deneyimi!"
  caption := pys "🎮 Muhteşem bir oyun deneyimi sizi bekliyor!\n\nBu oyunda neler var?\n✨ Etkileyici grafikler ve görsel efektler\n🎯 Sürükleyici oynanış mekanikleri  \n🏆 Rekabetçi çok oyunculu modlar\n🎨 Benzersiz sanat tasarımı\n\nOyunun öne çıkan özellikleri:\n• Kolay öğrenilir, ustalaşması zor oynanış\n• Düzenli içerik güncellemeleri\n• Aktif oyuncu topluluğu\n• Free-to-play model\n\nHemen indir ve maceraya katıl! 🚀\nArkadaşlarını etiketle ve birlikte oynayın! 👥\n\n📲 Şimdi ücretsiz indir!"
  hashtags := [pys "#mobiloyun", pys "#oyun", pys "#gaming", pys "#mobilegaming", pys "#yenioyun", pys "#türkiyegaming", pys "#oyunsever", pys "#mobilgame", pys "#gametr", pys "#oyunönerisi", pys "#ücretsizoyun", pys "#eğlence"]

/-- Hand-authored fallback template (template2) of `fallback_generation`,
transcribed verbatim from the source. -/
def template2 : Candidate where
  title := pys "🔥 Kaçırılmayacak Oyun Fırsatı!"
  caption := pys "🔥 Bu oyunu mutlaka denemelisiniz!\n\nNeden bu oyun?\n🌟 Özgün hikaye ve karakterler\n⚔️ Aksiyon dolu sahneler\n🗺️ Geniş keşif alanları\n💎 Ödüllendirici ilerleme sistemi\n\nOyuncular ne diyor?\n\"Yılın en iyi mobil oyunu!\" ⭐⭐⭐⭐⭐\n\"Bağımlılık yapıyor!\" \n\"Grafikler muhteşem!\"\n\nÖzel özellikler:\n• PvP ve PvE modları\n• Klan sistemi ve takım savaşları\n• Haftalık etkinlikler ve turnuvalar\n• Kişiselleştirilebilir karakterler\n\nSen de bu eğlenceye katıl! 🎊\nYorumlarda düşüncelerini paylaş! 💬\n\n🎮 Hemen oynamaya başla!"
  hashtags := [pys "#oyuntavsiyesi", pys "#mobiloyunlar", pys "#gameoftheday", pys "#oyunzamanı", pys "#türkoyun", pys "#gamer", pys "#mobilegamer", pys "#yenioyunlar", pys "#oyundünyası", pys "#gaming", pys "#oyuncu", pys "#mobilgaming"]

/-- Hand-authored fallback template (template3) of `fallback_generation`,
transcribed verbatim from the source. -/
def template3 : Candidate where
  title := pys "⚡ Mobil Oyun Dünyasının Yeni Yıldızı!"
  caption := pys "⚡ Herkesin konuştuğu oyun burada!\n\nOyunun büyüleyici dünyası:\n🏰 Epik maceralar ve görevler\n🐉 Efsanevi yaratıklar ve bosslar\n⚡ Güçlü yetenekler ve büyüler\n🎁 Günlük ödüller ve sürprizler\n\nNeler yapabilirsiniz?\n• Kendi kahramanınızı yaratın\n• Arkadaşlarınızla guild kurun\n• Dünya çapında oyuncularla yarışın\n• Eşsiz itemler toplayın\n\nTopluluk özellikleri:\n👥 Canlı sohbet sistemi\n🤝 Takım kurma ve işbirliği\n🏅 Liderlik tabloları\n🎯 Haftalık challengelar\n\nMaceranız başlasın! 🚀\nHangi seviyeye ulaşabilirsiniz? 💪\n\n⬇️ Ücretsiz indirin ve oynayın!"
  hashtags := [pys "#mobilegame", pys "#oyunlar", pys "#gamingcommunity", pys "#oyunaşkı", pys "#mobiloyunum", pys "#gamerlife", pys "#oyunbağımlısı", pys "#newgame", pys "#türkgamer", pys "#oyunönerisi", pys "#mobilegames", pys "#oyuntürkiye"]

/-- The fixed template list of `fallback_generation`. -/
def templates : List Candidate := [template1, template2, template3]

/-- The trend-hashtag mixing step of `fallback_generation`: when the trend
data is truthy and has a `hashtags` key, prepend its first 5 hashtags to
the first 7 template hashtags and cap at 12; otherwise leave the template
untouched.  `trendTags = none` models both an absent/falsy `trend_data`
dict and one without the key. -/
def mixTrend (trendTags : Option (List PyStr)) (c : Candidate) : Candidate :=
  match trendTags with
  | none => c
  | some tags => { c with hashtags := (tags.take 5 ++ c.hashtags.take 7).take 12 }

/-- `ContentGenerationAgent.fallback_generation`.  `random.sample(templates,
min(3, len(templates)))` draws all 3 templates without replacement in an
order decided by the PRNG; the drawn sequence is the `sampled` parameter,
constrained to be a permutation of `templates` at every use site. -/
def fallbackGeneration (sampled : List Candidate)
    (trendTags : Option (List PyStr)) : List Candidate :=
  sampled.map (mixTrend trendTags)

/-- What one OpenAI attempt yields, at the point where `generate` consumes
it.  `noResp` covers a missing/failed call and a falsy (empty) response;
`parsedOk` is a successful `json.loads` with all of `title`, `caption`,
`hashtags` present (`tags` is the raw JSON value: a whitespace-separated
string or a list of strings); `parsedMissing` is a successful `json.loads`
lacking one of the three keys (the candidate is silently skipped);
`unparsed` is a `JSONDecodeError`, handled by the heuristic line split. -/
inductive ProvResult where
  | noResp
  | parsedOk (title caption : PyStr) (tags : PyStr ⊕ List PyStr)
  | parsedMissing
  | unparsed (raw : PyStr)
  deriving Repr, DecidableEq

/-- `str.split()` with no argument: split on whitespace runs, no empties. -/
def pySplitWs (s : PyStr) : List PyStr :=
  (s.splitOnP isPySpace).filter (· ≠ [])

/-- The hashtag coercion of the JSON path: a string is whitespace-split,
every entry is forced to start with `#`, and the list is capped at 12. -/
def coerceTags (tags : PyStr ⊕ List PyStr) : List PyStr :=
  let asList : List PyStr :=
    match tags with
    | Sum.inl s => pySplitWs s
    | Sum.inr l => l
  (asList.map fun t => if t.head? = some '#' then t else '#' :: t).take 12

/-- The fixed hashtag list used by the heuristic parse path and by the
placeholder candidates. -/
def fixedHashtags : List PyStr :=
  [pys "#mobiloyun", pys "#gaming", pys "#oyun", pys "#game",
   pys "#türkiye", pys "#yenioyun", pys "#mobilegaming", pys "#gamer",
   pys "#oyunönerisi", pys "#gametr", pys "#mobilgame", pys "#oyuntürkiye"]

/-- How `generate` turns one OpenAI attempt into zero or one candidates:
the JSON path keeps the parsed title and caption as they are (only the
hashtags are coerced and capped); the heuristic path takes the first line
truncated to 60 as title and the middle lines joined (or the whole text)
truncated to 2200 as caption. -/
def handleResp : ProvResult → Option Candidate
  | ProvResult.noResp => none
  | ProvResult.parsedOk title caption tags =>
      some { title := title, caption := caption, hashtags := coerceTags tags }
  | ProvResult.parsedMissing => none
  | ProvResult.unparsed raw =>
      let lines := pySplit '\n' raw
      some
        { title :=
            match lines.head? with
            | some l => l.take 60
            | none => pys "Yeni Oyun Keşfi!"
          caption :=
            if 2 < lines.length then
              (List.intercalate (pys "\n") (lines.drop 1).dropLast).take 2200
            else raw.take 2200
          hashtags := fixedHashtags }

/-- The deterministic placeholder appended by the final `while` loop when
fewer than 3 candidates exist; `n` is `len(candidates)` at append time. -/
def placeholder (n : Nat) : Candidate where
  title := pys "🎮 Muhteşem Oyun Deneyimi #" ++ pys (toString (n + 1))
  caption := pys "Bu harika oyunu keşfedin! Eğlenceli oynanış, muhteşem grafikler ve daha fazlası sizi bekliyor. Hemen indirin ve oynamaya başlayın! 🚀 #oyun"
  hashtags := fixedHashtags

/-- The `while len(candidates) < 3` padding loop, unrolled: append
placeholders (numbered by the running length) until 3 candidates exist. -/
def padTo3 (cands : List Candidate) : List Candidate :=
  cands ++ (List.range (3 - cands.length)).map fun k => placeholder (cands.length + k)

/-- Result record of `ContentGenerationAgent.generate`. -/
structure GenResult where
  status : PyStr
  error : Option PyStr
  candidates : List Candidate
  generation_method : PyStr
  deriving Repr, DecidableEq

/-- The body of `generate`'s `try` block: provider attempts (when a client
is configured), fallback fill, placeholder padding, and the final `[:3]`. -/
def generateBody (client : Bool) (resp : Fin 3 → ProvResult)
    (sampled : List Candidate) (trendTags : Option (List PyStr)) : GenResult :=
  let providerCands :=
    if client then (List.finRange 3).filterMap fun i => handleResp (resp i)
    else []
  let withFallback :=
    if providerCands.length < 3 then
      providerCands ++
        (fallbackGeneration sampled trendTags).take (3 - providerCands.length)
    else providerCands
  { status := pys "success"
    error := none
    candidates := (padTo3 withFallback).take 3
    generation_method := if client then pys "openai" else pys "fallback" }

/-- `ContentGenerationAgent.generate`.  `err = some e` injects an
unexpected exception out of the `try` body; the `except` branch returns
the fallback candidates (capped at 3) with the error string reported in
the result's `error` field. -/
def generate (client : Bool) (resp : Fin 3 → ProvResult)
    (sampled : List Candidate) (trendTags : Option (List PyStr))
    (err : Option PyStr) : GenResult :=
  match err with
  | none => generateBody client resp sampled trendTags
  | some e =>
      { status := pys "error"
        error := some e
        candidates := (fallbackGeneration sampled trendTags).take 3
        generation_method := pys "fallback" }

/-! ### finalize.py — `FinalizationAgent.rank_hashtags` -/

/-- Brand/platform substrings checked by `rank_hashtags`. -/
def brandWords : List PyStr :=
  [pys "game", pys "oyun", pys "mobile", pys "mobil"]

/-- Niche-genre substrings checked by `rank_hashtags`. -/
def nicheWords : List PyStr :=
  [pys "rpg", pys "mmo", pys "pvp", pys "fps", pys "strategy"]

/-- The trending test of `rank_hashtags`: `tag in trending_tags or
any(t.lower() == tag_lower for t in trending_tags)` — the first disjunct is
subsumed by the case-insensitive second. -/
def isTrendTag (trending : List PyStr) (tag : PyStr) : Bool :=
  trending.any fun t => pyLower t = pyLower tag

/-- Brand category test: one of the brand words occurs in the lowercased tag. -/
def isBrandTag (tag : PyStr) : Bool :=
  brandWords.any fun w => pyContains (pyLower tag) w

/-- Niche category test: one of the niche words occurs in the lowercased tag. -/
def isNicheTag (tag : PyStr) : Bool :=
  nicheWords.any fun w => pyContains (pyLower tag) w

/-- `FinalizationAgent.rank_hashtags`.  `trendTags = none` models a falsy
`trend_data` or one without a `hashtags` key (empty trending set);
categorisation follows the `elif` chain (trend, then brand, then niche,
then general), the ordered list takes 3 trend + 2 niche + 2 brand + the
general rest, appends anything not yet included, and truncates to 12. -/
def rankHashtags (hashtags : List PyStr) (trendTags : Option (List PyStr)) :
    List PyStr :=
  let trending := (trendTags.getD []).take 10
  let isT := isTrendTag trending
  let trendL := hashtags.filter isT
  let brandL := hashtags.filter fun t => ¬isT t ∧ isBrandTag t
  let nicheL := hashtags.filter fun t => ¬isT t ∧ ¬isBrandTag t ∧ isNicheTag t
  let generalL :=
    hashtags.filter fun t => ¬isT t ∧ ¬isBrandTag t ∧ ¬isNicheTag t
  let ordered1 := trendL.take 3
  let ordered2 := ordered1 ++ (nicheL.filter (· ∉ ordered1)).take 2
  let ordered3 := ordered2 ++ (brandL.filter (· ∉ ordered2)).take 2
  let ordered4 := ordered3 ++ generalL.filter (· ∉ ordered3)
  let ordered5 :=
    hashtags.foldl (fun acc tag => if tag ∈ acc then acc else acc ++ [tag])
      ordered4
  ordered5.take 12

/-! ### controller.py — `ContentPipelineController.run_pipeline`

Each stage call is supplied as an `Except`: `Except.error e` models an
exception escaping that call into `run_pipeline`'s `try` (the stage
functions catch most errors internally and then return a value, i.e.
`Except.ok`); `collect` models the screenshot-gathering code between the
generation and quality stages, which also runs inside the `try`.  The
payload type is abstract — the claim concerns only the stage names, their
order, and the status/error fields. -/

/-- The run-result record assembled by `run_pipeline`; `stages` preserves
insertion order (Python dicts are insertion-ordered). -/
structure RunResult (α : Type) where
  status : PyStr
  error : Option PyStr
  stages : List (PyStr × α)
  deriving Repr, DecidableEq

/-- The six stage names in execution order (the screenshot-collection step
between generation and quality control records no stage of its own). -/
def stageNames : List PyStr :=
  [pys "input_preparation", pys "trend_analysis", pys "content_understanding",
   pys "content_generation", pys "quality_control", pys "finalization"]

/-- `ContentPipelineController.run_pipeline`: run the stages strictly in
sequence, recording each completed stage's result under its name; the first
exception flips the status to `failed` and stores the error string, and the
partially populated record is returned rather than raised. -/
def runPipeline {α : Type} (prep trend understand gen : Except PyStr α)
    (collect : Except PyStr Unit) (quality finalize : Except PyStr α) :
    RunResult α :=
  let fail := fun (stages : List (PyStr × α)) (e : PyStr) =>
    { status := pys "failed", error := some e, stages := stages : RunResult α }
  match prep with
  | Except.error e => fail [] e
  | Except.ok v1 =>
    let s1 := [(pys "input_preparation", v1)]
    match trend with
    | Except.error e => fail s1 e
    | Except.ok v2 =>
      let s2 := s1 ++ [(pys "trend_analysis", v2)]
      match understand with
      | Except.error e => fail s2 e
      | Except.ok v3 =>
        let s3 := s2 ++ [(pys "content_understanding", v3)]
        match gen with
        | Except.error e => fail s3 e
        | Except.ok v4 =>
          let s4 := s3 ++ [(pys "content_generation", v4)]
          match collect with
          | Except.error e => fail s4 e
          | Except.ok _ =>
            match quality with
            | Except.error e => fail s4 e
            | Except.ok v5 =>
              let s5 := s4 ++ [(pys "quality_control", v5)]
              match finalize with
              | Except.error e => fail s5 e
              | Except.ok v6 =>
                { status := pys "completed", error := none
                  stages := s5 ++ [(pys "finalization", v6)] }

/-- How many stages complete before the first failing step. -/
def completedStages {α : Type} (prep trend understand gen : Except PyStr α)
    (collect : Except PyStr Unit) (quality finalize : Except PyStr α) : Nat :=
  match prep, trend, understand, gen, collect, quality, finalize with
  | Except.error _, _, _, _, _, _, _ => 0
  | Except.ok _, Except.error _, _, _, _, _, _ => 1
  | Except.ok _, Except.ok _, Except.error _, _, _, _, _ => 2
  | Except.ok _, Except.ok _, Except.ok _, Except.error _, _, _, _ => 3
  | Except.ok _, Except.ok _, Except.ok _, Except.ok _, Except.error _, _, _ => 4
  | Except.ok _, Except.ok _, Except.ok _, Except.ok _, Except.ok _,
      Except.error _, _ => 4
  | Except.ok _, Except.ok _, Except.ok _, Except.ok _, Except.ok _,
      Except.ok _, Except.error _ => 5
  | Except.ok _, Except.ok _, Except.ok _, Except.ok _, Except.ok _,
      Except.ok _, Except.ok _ => 6

/-! ### Concrete inputs used by counterexamples and witnesses -/

/-- A provider-response assignment whose first attempt parses as JSON with
a 61-character title (a response the real provider can produce, e.g. the
JSON text with `"title"` holding 61 `T`s); the other attempts fail. -/
def cexResp : Fin 3 → ProvResult := fun i =>
  if i = 0 then
    ProvResult.parsedOk (List.replicate 61 'T') (pys "ok") (Sum.inr [])
  else ProvResult.noResp

/-- An image environment in which no path exists on disk. -/
def absentEnv : PyStr → ImgFate :=
  fun _ => { pathExists := false, dims := none, resizeOk := false }

/-- A 61-character title whose 60th character is a space: truncation to 60
characters leaves trailing whitespace. -/
def cexTitle : PyStr := List.replicate 59 'a' ++ pys " b"

/-- Did this step of the pipeline raise (`Except.error`)? -/
def exceptFailed {ε β : Type} : Except ε β → Bool
  | Except.error _ => true
  | Except.ok _ => false

/-! ## Theorems -/

theorem foldl_filter_map_append {β : Type} (f : PyStr → Bool) (g : PyStr → β) :
    ∀ (paths : List PyStr) (acc : List β),
      paths.foldl (fun processed p =>
        if f p then processed ++ [g p] else processed) acc
        = acc ++ (paths.filter f).map g := by
  intro paths
  induction paths with
  | nil => simp
  | cons p ps ih =>
      intro acc
      by_cases h : f p <;> simp [h, ih]

theorem processImages_eq (env : PyStr → ImgFate) (paths : List PyStr)
    (outdir : PyStr) :
    processImages env paths outdir =
      (paths.filter fun p => (env p).pathExists).map (processedName outdir) := by
  unfold processImages
  rw [List.foldl_ext _
    (fun processed p =>
      if (env p).pathExists then processed ++ [processedName outdir p]
      else processed)]
  · exact foldl_filter_map_append _ _ paths []
  · intro acc p _
    by_cases h : (env p).pathExists <;> simp [h]

/-- C9: the claim states that `process_images` (as driven by
`check_quality`, which caps the input at its first 10 paths) produces
exactly one output entry for *every* one of those paths.  It does not: a
path failing the `os.path.exists` check is skipped by `continue` with no
output entry at all.  Concretely, a single supplied nonexistent path
yields an empty output list, not one entry. -/
theorem claim_c9_counterexample :
    (checkQuality [] [pys "a.jpg"] (pys "out") absentEnv none).processed_paths
        = [] ∧
    (checkQuality [] [pys "a.jpg"] (pys "out") absentEnv
        none).processed_count ≠ 1 := by
  constructor
  · rfl
  · decide

/-- C9 (amended): `check_quality` passes only the first 10 supplied paths
to `process_images`, and for each of those that exists on disk exactly one
output entry is produced, in input order — the normalized image, or, on a
per-image resize failure, an unchanged copy written to the same output
path (so a per-image failure never aborts the batch, and the output is
independent of which images failed); nonexistent paths are skipped with no
entry. -/
theorem claim_c9 (cands : List Candidate) (imgs : List PyStr)
    (outputBase : PyStr) (env : PyStr → ImgFate) :
    let r := checkQuality cands imgs outputBase env none
    r.processed_paths =
      ((imgs.take 10).filter fun p => (env p).pathExists).map
        (processedName (outputBase ++ pys "/images")) ∧
    r.processed_count =
      ((imgs.take 10).filter fun p => (env p).pathExists).length := by
  intro r
  have h := processImages_eq env (imgs.take 10) (outputBase ++ pys "/images")
  constructor
  · show processImages env (imgs.take 10) (outputBase ++ pys "/images") = _
    exact h
  · show (processImages env (imgs.take 10)
      (outputBase ++ pys "/images")).length = _
    rw [h, List.length_map]

/-- C10: on the success path of `check_quality`, the reported
`quality_score` equals `max(0, 100 - 10 * N)` where `N` is the total
number of validation issues across all validated candidates; it is always
an integer in `[0, 100]`, and it equals `100` exactly when every candidate
validated with zero issues. -/
theorem claim_c10 (cands : List Candidate) (imgs : List PyStr)
    (outputBase : PyStr) (env : PyStr → ImgFate) :
    let r := checkQuality cands imgs outputBase env none
    let N : ℕ :=
      ((r.validated_candidates).map fun vc => vc.validation_issues.length).sum
    r.quality_score = max 0 (100 - 10 * (N : ℤ)) ∧
    0 ≤ r.quality_score ∧ r.quality_score ≤ 100 ∧
    (r.quality_score = 100 ↔
      ∀ vc ∈ r.validated_candidates, vc.validation_issues = []) := by
  intro r N
  have hscore : r.quality_score = max 0 (100 - (N : ℤ) * 10) := rfl
  refine ⟨by rw [hscore]; ring_nf, ?_, ?_, ?_⟩
  · rw [hscore]; exact le_max_left _ _
  · rw [hscore]
    have : (0 : ℤ) ≤ (N : ℤ) := Int.natCast_nonneg N
    omega
  · rw [hscore]
    have hN : (0 : ℤ) ≤ (N : ℤ) := Int.natCast_nonneg N
    have h100 : max 0 (100 - (N : ℤ) * 10) = 100 ↔ N = 0 := by omega
    rw [h100]
    have hsum : N = 0 ↔
        ∀ x ∈ (r.validated_candidates).map
          (fun vc => vc.validation_issues.length), x = 0 :=
      List.sum_eq_zero_iff
    rw [hsum]
    constructor
    · intro hall vc hvc
      exact List.length_eq_zero.mp
        (hall vc.validation_issues.length (List.mem_map_of_mem _ hvc))
    · intro hall x hx
      rcases List.mem_map.mp hx with ⟨vc, hvc, rfl⟩
      rw [hall vc hvc]
      rfl

/-- C3: `run_pipeline` never raises to its caller — in the embedding it is
a total function into `RunResult`, whatever each stage call's outcome.
When any step raises an unhandled exception, the returned (partially
populated) record has overall status `'failed'` and an error string, and
its `stages` mapping holds exactly the stages that completed before the
failure, under their stage names, in execution order; when nothing raises,
the status is `'completed'` with all six stages recorded. -/
theorem claim_c3 {α : Type} (prep trend understand gen : Except PyStr α)
    (collect : Except PyStr Unit) (quality finalize : Except PyStr α) :
    let r := runPipeline prep trend understand gen collect quality finalize
    let failed := exceptFailed prep || exceptFailed trend ||
      exceptFailed understand || exceptFailed gen || exceptFailed collect ||
      exceptFailed quality || exceptFailed finalize
    r.stages.map Prod.fst =
      stageNames.take
        (completedStages prep trend understand gen collect quality finalize) ∧
    (failed = true → r.status = pys "failed" ∧ ∃ e, r.error = some e) ∧
    (failed = false →
      r.status = pys "completed" ∧ r.error = none ∧ r.stages.length = 6) := by
  cases prep <;> cases trend <;> cases understand <;> cases gen <;>
    cases collect <;> cases quality <;> cases finalize <;>
    simp [runPipeline, completedStages, stageNames, exceptFailed]

/-- C3 witness: a concrete failing run (the understanding stage raises):
two stages complete, the status is `failed`, and the error is reported. -/
theorem claim_c3_witness :
    (runPipeline (Except.ok 0) (Except.ok 1)
        (Except.error (pys "boom")) (Except.ok 2) (Except.ok ())
        (Except.ok 3) (Except.ok (4 : Nat))).stages.map Prod.fst =
      [pys "input_preparation", pys "trend_analysis"] ∧
    (runPipeline (Except.ok 0) (Except.ok 1)
        (Except.error (pys "boom")) (Except.ok 2) (Except.ok ())
        (Except.ok 3) (Except.ok (4 : Nat))).status = pys "failed" ∧
    ∃ e, (runPipeline (Except.ok 0) (Except.ok 1)
        (Except.error (pys "boom")) (Except.ok 2) (Except.ok ())
        (Except.ok 3) (Except.ok (4 : Nat))).error = some e := by
  have h := claim_c3 (Except.ok 0) (Except.ok 1)
    (Except.error (pys "boom")) (Except.ok 2) (Except.ok ())
    (Except.ok 3) (Except.ok (4 : Nat))
  refine ⟨?_, (h.2.1 (by decide)).1, (h.2.1 (by decide)).2⟩
  exact h.1

theorem templates_length : templates.length = 3 := rfl

theorem fallbackGeneration_length (sampled : List Candidate)
    (trendTags : Option (List PyStr)) (hs : sampled.Perm templates) :
    (fallbackGeneration sampled trendTags).length = 3 := by
  simp [fallbackGeneration, hs.length_eq, templates_length]

theorem fallbackGeneration_take3 (sampled : List Candidate)
    (trendTags : Option (List PyStr)) (hs : sampled.Perm templates) :
    (fallbackGeneration sampled trendTags).take 3 =
      fallbackGeneration sampled trendTags :=
  List.take_of_length_le (fallbackGeneration_length sampled trendTags hs).le

theorem padTo3_take3_length (l : List Candidate) :
    ((padTo3 l).take 3).length = 3 := by
  simp [padTo3, List.length_take]
  omega

/-- C1: for every well-typed trend/content input, provider configuration
and provider-response assignment, `generate` returns exactly 3 post
candidates; it never raises to its caller — the embedding is a total
function over every oracle outcome, the injected-exception case `err =
some e` included — and on an unexpected internal error it returns the
fallback candidate set (the three fixed templates with the trend hashtags
mixed in, a set fully determined by the trend data) with the error
reported in the result's `error` field. -/
theorem claim_c1 (client : Bool) (resp : Fin 3 → ProvResult)
    (sampled : List Candidate) (trendTags : Option (List PyStr))
    (err : Option PyStr) (hs : sampled.Perm templates) :
    let r := generate client resp sampled trendTags err
    r.candidates.length = 3 ∧
    (∀ e, err = some e → r.error = some e ∧
      r.candidates.Perm (templates.map (mixTrend trendTags))) := by
  intro r
  cases err with
  | none =>
      refine ⟨?_, by intro e he; cases he⟩
      show ((padTo3 _).take 3).length = 3
      exact padTo3_take3_length _
  | some e =>
      constructor
      · show ((fallbackGeneration sampled trendTags).take 3).length = 3
        rw [fallbackGeneration_take3 sampled trendTags hs]
        exact fallbackGeneration_length sampled trendTags hs
      · intro e' he'
        cases he'
        refine ⟨rfl, ?_⟩
        show ((fallbackGeneration sampled trendTags).take 3).Perm _
        rw [fallbackGeneration_take3 sampled trendTags hs]
        exact hs.map (mixTrend trendTags)

/-- C1 witness: with no provider client and an injected internal error,
the result still holds 3 candidates, reports the error, and the candidate
set is the template set. -/
theorem claim_c1_witness :
    (generate false (fun _ => ProvResult.noResp) templates none
        (some (pys "boom"))).candidates.length = 3 ∧
    (generate false (fun _ => ProvResult.noResp) templates none
        (some (pys "boom"))).error = some (pys "boom") ∧
    (generate false (fun _ => ProvResult.noResp) templates none
        (some (pys "boom"))).candidates.Perm
      (templates.map (mixTrend none)) := by
  have h := claim_c1 false (fun _ => ProvResult.noResp) templates none
    (some (pys "boom")) (List.Perm.refl _)
  exact ⟨h.1, (h.2 _ rfl).1, (h.2 _ rfl).2⟩

theorem mem_padTo3 {cand : Candidate} {l : List Candidate}
    (h : cand ∈ padTo3 l) : cand ∈ l ∨ ∃ m, m < 3 ∧ cand = placeholder m := by
  rcases List.mem_append.mp h with hl | hr
  · exact Or.inl hl
  · rcases List.mem_map.mp hr with ⟨k, hk, rfl⟩
    have hk3 : k < 3 - l.length := List.mem_range.mp hk
    exact Or.inr ⟨l.length + k, by omega, rfl⟩

theorem placeholder_hashtags (m : Nat) :
    (placeholder m).hashtags = fixedHashtags := rfl

theorem placeholder_title_le (m : Nat) (hm : m < 3) :
    (placeholder m).title.length ≤ 60 := by
  interval_cases m <;> decide

theorem mem_templates_bounds {c : Candidate} (h : c ∈ templates) :
    c.title.length ≤ 60 ∧ c.hashtags.length = 12 := by
  simp [templates] at h
  rcases h with rfl | rfl | rfl <;> exact ⟨by decide, by decide⟩

theorem mixTrend_title (trendTags : Option (List PyStr)) (c : Candidate) :
    (mixTrend trendTags c).title = c.title := by
  cases trendTags <;> rfl

theorem mixTrend_tags_le (trendTags : Option (List PyStr)) (c : Candidate)
    (hc : c.hashtags.length ≤ 12) :
    (mixTrend trendTags c).hashtags.length ≤ 12 := by
  cases trendTags with
  | none => exact hc
  | some tags =>
      show (((tags.take 5 ++ c.hashtags.take 7).take 12)).length ≤ 12
      exact List.length_take_le _ _

theorem handleResp_tags_le {r : ProvResult} {c : Candidate}
    (h : handleResp r = some c) : c.hashtags.length ≤ 12 := by
  cases r with
  | noResp => cases h
  | parsedMissing => cases h
  | parsedOk t cap g =>
      cases h
      exact List.length_take_le _ _
  | unparsed raw =>
      cases h
      show fixedHashtags.length ≤ 12
      decide

theorem handleResp_title_le {r : ProvResult} {c : Candidate}
    (hne : ∀ t cap g, r ≠ ProvResult.parsedOk t cap g)
    (h : handleResp r = some c) : c.title.length ≤ 60 := by
  cases r with
  | noResp => cases h
  | parsedMissing => cases h
  | parsedOk t cap g => exact absurd rfl (hne t cap g)
  | unparsed raw =>
      cases h
      show (match (pySplit '\n' raw).head? with
        | some l => l.take 60
        | none => pys "Yeni Oyun Keşfi!").length ≤ 60
      cases (pySplit '\n' raw).head? with
      | some l => exact List.length_take_le _ _
      | none => decide

theorem generate_mem_cases (client : Bool) (resp : Fin 3 → ProvResult)
    (sampled : List Candidate) (trendTags : Option (List PyStr))
    (err : Option PyStr) (hs : sampled.Perm templates) {cand : Candidate}
    (h : cand ∈ (generate client resp sampled trendTags err).candidates) :
    (∃ i : Fin 3, handleResp (resp i) = some cand) ∨
    (∃ c ∈ templates, cand = mixTrend trendTags c) ∨
    (∃ m, m < 3 ∧ cand = placeholder m) := by
  have fallback_case : ∀ x ∈ fallbackGeneration sampled trendTags,
      ∃ c ∈ templates, x = mixTrend trendTags c := by
    intro x hx
    rcases List.mem_map.mp hx with ⟨c, hc, rfl⟩
    exact ⟨c, hs.mem_iff.mp hc, rfl⟩
  cases err with
  | some e =>
      have h' := (List.take_sublist 3 _).mem h
      exact Or.inr (Or.inl (fallback_case _ h'))
  | none =>
      have h1 := (List.take_sublist 3 _).mem h
      rcases mem_padTo3 h1 with h2 | h2
      · have h3 : cand ∈
            (if client then
              (List.finRange 3).filterMap fun i => handleResp (resp i)
             else []) ∨
            cand ∈ (fallbackGeneration sampled trendTags).take
              (3 - (if client then
                (List.finRange 3).filterMap fun i => handleResp (resp i)
               else []).length) := by
          by_cases hlen : (if client then
              (List.finRange 3).filterMap fun i => handleResp (resp i)
             else []).length < 3
          · simp only [generateBody, if_pos hlen] at h2
            exact List.mem_append.mp h2
          · simp only [generateBody, if_neg hlen] at h2
            exact Or.inl h2
        rcases h3 with h4 | h4
        · by_cases hc : client
          · rw [if_pos hc] at h4
            rcases List.mem_filterMap.mp h4 with ⟨i, _, hi⟩
            exact Or.inl ⟨i, hi⟩
          · rw [if_neg hc] at h4
            cases h4
        · have h5 := (List.take_sublist _ _).mem h4
          exact Or.inr (Or.inl (fallback_case _ h5))
      · exact Or.inr (Or.inr h2)

/-- C7 counterexample: the claim states that every candidate returned by
`generate` has a title of at most 60 characters for arbitrary
text-provider responses.  On the successful-JSON-parse path the provider's
title is passed through untruncated, so a provider response whose parsed
`title` holds 61 characters yields a candidate with a 61-character title. -/
theorem claim_c7_counterexample :
    ∃ cand ∈ (generate true cexResp templates none none).candidates,
      60 < cand.title.length := by
  decide

/-- C7 (amended): every one of the exactly-3 candidates returned by
`generate` carries at most 12 hashtags on every path; each candidate's
title is at most 60 characters on the fallback, placeholder and
heuristic-parse paths — i.e. whenever no provider response is a
successfully JSON-parsed object — while a successfully parsed provider
title is passed through unbounded. -/
theorem claim_c7 (client : Bool) (resp : Fin 3 → ProvResult)
    (sampled : List Candidate) (trendTags : Option (List PyStr))
    (err : Option PyStr) (hs : sampled.Perm templates) :
    let r := generate client resp sampled trendTags err
    r.candidates.length = 3 ∧
    (∀ cand ∈ r.candidates, cand.hashtags.length ≤ 12) ∧
    ((∀ i t cap g, resp i ≠ ProvResult.parsedOk t cap g) →
      ∀ cand ∈ r.candidates, cand.title.length ≤ 60) := by
  intro r
  refine ⟨(claim_c1 client resp sampled trendTags err hs).1, ?_, ?_⟩
  · intro cand hc
    rcases generate_mem_cases client resp sampled trendTags err hs hc with
      ⟨i, hi⟩ | ⟨c, hct, rfl⟩ | ⟨m, _, rfl⟩
    · exact handleResp_tags_le hi
    · exact mixTrend_tags_le trendTags c (mem_templates_bounds hct).2.le
    · rw [placeholder_hashtags]
      decide
  · intro hne cand hc
    rcases generate_mem_cases client resp sampled trendTags err hs hc with
      ⟨i, hi⟩ | ⟨c, hct, rfl⟩ | ⟨m, hm, rfl⟩
    · exact handleResp_title_le (hne i) hi
    · rw [mixTrend_title]
      exact (mem_templates_bounds hct).1
    · exact placeholder_title_le m hm

/-- C7 witness: with no client configured (so no parsed provider
response), all 3 candidates satisfy both the hashtag and title bounds. -/
theorem claim_c7_witness :
    (generate false (fun _ => ProvResult.noResp) templates none
        none).candidates.length = 3 ∧
    (∀ cand ∈ (generate false (fun _ => ProvResult.noResp) templates none
        none).candidates, cand.hashtags.length ≤ 12) ∧
    (∀ cand ∈ (generate false (fun _ => ProvResult.noResp) templates none
        none).candidates, cand.title.length ≤ 60) := by
  have h := claim_c7 false (fun _ => ProvResult.noResp) templates none none
    (List.Perm.refl _)
  exact ⟨h.1, h.2.1, h.2.2 (by intro i t cap g hx; cases hx)⟩

/-- C8 counterexample: the claim states that `fallback_generation` returns
an identical candidate sequence on any two runs over the same data.  The
selection `random.sample(templates, 3)` draws the 3 templates in a
PRNG-dependent order, so two runs whose draws are the identity and the
first-two-swapped permutation return different sequences (their first
titles already differ). -/
theorem claim_c8_counterexample :
    [template1, template2, template3].Perm templates ∧
    [template2, template1, template3].Perm templates ∧
    fallbackGeneration [template1, template2, template3] none ≠
      fallbackGeneration [template2, template1, template3] none := by
  refine ⟨List.Perm.refl _, List.Perm.swap template1 template2 [template3], ?_⟩
  intro h
  have h1 : template1 = template2 := by
    have := congrArg (fun l => List.head? l) h
    simpa [fallbackGeneration, mixTrend] using this
  have : template1.title = template2.title := congrArg Candidate.title h1
  revert this
  decide

/-- C8 (amended): the fallback generation is deterministic up to the
sampling order — for any two runs of `fallback_generation` on the same
trend data and content data, the returned candidate multisets are
identical (each candidate's titles, captions and mixed hashtag list are
fully determined by its template and the trend data); only the order of
the 3 candidates varies with the PRNG's draw. -/
theorem claim_c8 (s1 s2 : List Candidate) (trendTags : Option (List PyStr))
    (h1 : s1.Perm templates) (h2 : s2.Perm templates) :
    (fallbackGeneration s1 trendTags).Perm
      (fallbackGeneration s2 trendTags) ∧
    (fallbackGeneration s1 trendTags).length = 3 :=
  ⟨(h1.trans h2.symm).map (mixTrend trendTags),
    fallbackGeneration_length s1 trendTags h1⟩

/-- C8 witness: two concrete draws yield permuted (equal-as-multiset)
outputs of length 3. -/
theorem claim_c8_witness :
    (fallbackGeneration templates none).Perm
      (fallbackGeneration [template2, template1, template3] none) ∧
    (fallbackGeneration templates none).length = 3 :=
  claim_c8 templates [template2, template1, template3] none
    (List.Perm.refl _) (List.Perm.swap template1 template2 [template3])

theorem mergeSort_take_sorted_desc (scores : List (PyStr × ℚ)) (n : Nat) :
    List.Sorted (fun a b : PyStr × ℚ => b.2 ≤ a.2)
      ((scores.mergeSort fun a b => b.2 ≤ a.2).take n) := by
  have htrans : ∀ a b c : PyStr × ℚ,
      (decide (b.2 ≤ a.2)) = true → (decide (c.2 ≤ b.2)) = true →
      (decide (c.2 ≤ a.2)) = true := by
    intro a b c hab hbc
    simp only [decide_eq_true_eq] at *
    exact le_trans hbc hab
  have htotal : ∀ a b : PyStr × ℚ,
      ((decide (b.2 ≤ a.2)) || (decide (a.2 ≤ b.2))) = true := by
    intro a b
    simp only [Bool.or_eq_true, decide_eq_true_eq]
    exact le_total b.2 a.2
  have hp := List.sorted_mergeSort htrans htotal scores
  have hs : List.Sorted (fun a b : PyStr × ℚ => b.2 ≤ a.2)
      (scores.mergeSort fun a b => b.2 ≤ a.2) :=
    hp.imp fun h => of_decide_eq_true h
  exact hs.sublist (List.take_sublist n _)

/-- C5: for every keyword source, provider availability and provider
response (both the provider-backed scoring path and the deterministic
fallback scoring path, per batch or wholesale, and the top-level error
path), `analyze` returns `top_keywords` sorted non-increasingly by score
with at most 15 entries, and a hashtag list with at most 20 entries. -/
theorem claim_c5 (oracle : TrendOracle) (fileContent : Option PyStr)
    (err : Option PyStr) :
    let r := trendAnalyze oracle fileContent err
    List.Sorted (fun a b : PyStr × ℚ => b.2 ≤ a.2) r.top_keywords ∧
    r.top_keywords.length ≤ 15 ∧ r.hashtags.length ≤ 20 := by
  intro r
  cases err with
  | some e =>
      refine ⟨List.sorted_nil, ?_, ?_⟩
      · show ([] : List (PyStr × ℚ)).length ≤ 15
        decide
      show ([pys "#mobilegame", pys "#gaming", pys "#game",
        pys "#play", pys "#fun"]).length ≤ 20
      decide
  | none =>
      refine ⟨?_, ?_, ?_⟩
      · show List.Sorted _ (getTrendScores oracle _)
        unfold getTrendScores
        exact mergeSort_take_sorted_desc _ 15
      · show (getTrendScores oracle _).length ≤ 15
        unfold getTrendScores
        exact List.length_take_le _ _
      · show (generateHashtags _).length ≤ 20
        unfold generateHashtags
        exact List.length_take_le _ _

theorem cleanTag_head (tag : PyStr) : ∃ t', cleanTag tag = '#' :: t' := by
  unfold cleanTag
  by_cases h : tag.head? = some '#'
  · rw [if_pos h]
    cases tag with
    | nil => cases h
    | cons a rest =>
        rw [List.head?_cons, Option.some_inj] at h
        subst h
        exact ⟨_, List.filter_cons_of_pos (by decide)⟩
  · rw [if_neg h]
    exact ⟨_, List.filter_cons_of_pos (by decide)⟩

theorem cleanTag_idem (tag : PyStr) : cleanTag (cleanTag tag) = cleanTag tag := by
  obtain ⟨t', ht⟩ := cleanTag_head tag
  have hhead : (cleanTag tag).head? = some '#' := by rw [ht]; rfl
  show (if (cleanTag tag).head? = some '#' then cleanTag tag
    else '#' :: cleanTag tag).filter _ = cleanTag tag
  rw [if_pos hhead]
  apply List.filter_eq_self.mpr
  intro c hc
  unfold cleanTag at hc
  exact List.of_mem_filter (p := fun c => decide (c = '#') || isWordChar c) hc

theorem foldl_cleanStep_nodup (l : List PyStr) :
    ∀ acc : List PyStr, (acc.map pyLower).Nodup →
      ((List.foldl cleanStep acc l).map pyLower).Nodup := by
  induction l with
  | nil => intro acc h; exact h
  | cons tag rest ih =>
      intro acc h
      rw [List.foldl_cons]
      apply ih
      unfold cleanStep
      by_cases hc : pyLower (cleanTag tag) ∉ acc.map pyLower ∧
          1 < (cleanTag tag).length
      · rw [if_pos hc, List.map_append, List.nodup_append]
        refine ⟨h, List.nodup_singleton _, ?_⟩
        intro x hx hx2
        simp only [List.map_cons, List.map_nil, List.mem_singleton] at hx2
        subst hx2
        exact hc.1 hx
      · rw [if_neg hc]
        exact h

theorem foldl_cleanStep_P (l : List PyStr) :
    ∀ acc : List PyStr, (∀ x ∈ acc, cleanTag x = x ∧ 1 < x.length) →
      ∀ x ∈ List.foldl cleanStep acc l, cleanTag x = x ∧ 1 < x.length := by
  induction l with
  | nil => intro acc h; exact h
  | cons tag rest ih =>
      intro acc h
      rw [List.foldl_cons]
      apply ih
      unfold cleanStep
      by_cases hc : pyLower (cleanTag tag) ∉ acc.map pyLower ∧
          1 < (cleanTag tag).length
      · rw [if_pos hc]
        intro x hx
        rcases List.mem_append.mp hx with hx1 | hx1
        · exact h x hx1
        · rw [List.mem_singleton] at hx1
          subst hx1
          exact ⟨cleanTag_idem tag, hc.2⟩
      · rw [if_neg hc]
        exact h

theorem foldl_cleanStep_fixed (l : List PyStr) :
    ∀ acc : List PyStr, ((acc ++ l).map pyLower).Nodup →
      (∀ x ∈ l, cleanTag x = x ∧ 1 < x.length) →
      List.foldl cleanStep acc l = acc ++ l := by
  induction l with
  | nil => intro acc _ _; simp
  | cons t rest ih =>
      intro acc hnd hP
      have hPt := hP t (List.mem_cons_self t rest)
      have hnotmem : pyLower (cleanTag t) ∉ acc.map pyLower := by
        rw [hPt.1]
        rw [List.map_append, List.nodup_append] at hnd
        intro hmem
        exact hnd.2.2 hmem (List.mem_map_of_mem pyLower
          (List.mem_cons_self t rest))
      rw [List.foldl_cons]
      have hstep : cleanStep acc t = acc ++ [t] := by
        unfold cleanStep
        rw [if_pos ⟨hnotmem, by rw [hPt.1]; exact hPt.2⟩, hPt.1]
      rw [hstep]
      have hnd' : (((acc ++ [t]) ++ rest).map pyLower).Nodup := by
        rw [List.append_assoc]
        exact hnd
      rw [ih (acc ++ [t]) hnd' fun x hx => hP x (List.mem_cons_of_mem t hx)]
      rw [List.append_assoc]
      rfl

theorem cleanTags_nodup (h : List PyStr) : ((cleanTags h).map pyLower).Nodup :=
  foldl_cleanStep_nodup h [] (by simp)

theorem cleanTags_P (h : List PyStr) :
    ∀ x ∈ cleanTags h, cleanTag x = x ∧ 1 < x.length :=
  foldl_cleanStep_P h [] (by simp)

theorem cleanTags_fixed (l : List PyStr) (hn : (l.map pyLower).Nodup)
    (hP : ∀ x ∈ l, cleanTag x = x ∧ 1 < x.length) : cleanTags l = l := by
  have := foldl_cleanStep_fixed l [] (by simpa using hn) hP
  simpa [cleanTags] using this

theorem foldl_genStep_nodup (gs : List PyStr) :
    ∀ acc : List PyStr, (acc.map pyLower).Nodup →
      ((List.foldl genStep acc gs).map pyLower).Nodup := by
  induction gs with
  | nil => intro acc h; exact h
  | cons g rest ih =>
      intro acc h
      rw [List.foldl_cons]
      apply ih
      unfold genStep
      by_cases hc : pyLower g ∉ acc.map pyLower ∧ acc.length < 5
      · rw [if_pos hc, List.map_append, List.nodup_append]
        refine ⟨h, List.nodup_singleton _, ?_⟩
        intro x hx hx2
        simp only [List.map_cons, List.map_nil, List.mem_singleton] at hx2
        subst hx2
        exact hc.1 hx
      · rw [if_neg hc]
        exact h

theorem foldl_genStep_P (gs : List PyStr) :
    ∀ acc : List PyStr, (∀ x ∈ acc, cleanTag x = x ∧ 1 < x.length) →
      (∀ g ∈ gs, cleanTag g = g ∧ 1 < g.length) →
      ∀ x ∈ List.foldl genStep acc gs, cleanTag x = x ∧ 1 < x.length := by
  induction gs with
  | nil => intro acc h _; exact h
  | cons g rest ih =>
      intro acc h hg
      rw [List.foldl_cons]
      apply ih
      · unfold genStep
        by_cases hc : pyLower g ∉ acc.map pyLower ∧ acc.length < 5
        · rw [if_pos hc]
          intro x hx
          rcases List.mem_append.mp hx with hx1 | hx1
          · exact h x hx1
          · rw [List.mem_singleton] at hx1
            subst hx1
            exact hg _ (List.mem_cons_self _ rest)
        · rw [if_neg hc]
          exact h
      · exact fun g' hg' => hg g' (List.mem_cons_of_mem g hg')

theorem foldl_genStep_mono (gs : List PyStr) :
    ∀ acc : List PyStr, acc.length ≤ (List.foldl genStep acc gs).length := by
  induction gs with
  | nil => intro acc; exact le_refl _
  | cons g rest ih =>
      intro acc
      rw [List.foldl_cons]
      refine le_trans ?_ (ih (genStep acc g))
      unfold genStep
      by_cases hc : pyLower g ∉ acc.map pyLower ∧ acc.length < 5
      · rw [if_pos hc, List.length_append]
        omega
      · rw [if_neg hc]

theorem foldl_genStep_le (gs : List PyStr) :
    ∀ acc : List PyStr, (List.foldl genStep acc gs).length ≤ max acc.length 5 := by
  induction gs with
  | nil => intro acc; exact le_max_left _ _
  | cons g rest ih =>
      intro acc
      rw [List.foldl_cons]
      refine le_trans (ih (genStep acc g)) ?_
      unfold genStep
      by_cases hc : pyLower g ∉ acc.map pyLower ∧ acc.length < 5
      · rw [if_pos hc, List.length_append]
        have := hc.2
        simp only [List.length_cons, List.length_nil]
        omega
      · rw [if_neg hc]

theorem foldl_genStep_ge (gs : List PyStr) (hnd : (gs.map pyLower).Nodup) :
    ∀ acc : List PyStr,
      min 5 (acc.length +
        (gs.filter fun g => decide (pyLower g ∉ acc.map pyLower)).length) ≤
      (List.foldl genStep acc gs).length := by
  induction gs with
  | nil =>
      intro acc
      simp only [List.filter_nil, List.length_nil, Nat.add_zero,
        List.foldl_nil]
      exact min_le_right _ _
  | cons g rest ih =>
      rw [List.map_cons, List.nodup_cons] at hnd
      intro acc
      rw [List.foldl_cons]
      by_cases hmem : pyLower g ∈ acc.map pyLower
      · have hstep : genStep acc g = acc := by
          unfold genStep
          rw [if_neg (by intro hc; exact hc.1 hmem)]
        have hfilter : (List.filter
            (fun g' => decide (pyLower g' ∉ acc.map pyLower)) (g :: rest))
            = List.filter (fun g' => decide (pyLower g' ∉ acc.map pyLower))
              rest := by
          rw [List.filter_cons_of_neg (by simpa using hmem)]
        rw [hstep, hfilter]
        exact ih hnd.2 acc
      · by_cases hlen : acc.length < 5
        · have hstep : genStep acc g = acc ++ [g] := by
            unfold genStep
            rw [if_pos ⟨hmem, hlen⟩]
          have hfilter : (List.filter
              (fun g' => decide (pyLower g' ∉ acc.map pyLower)) (g :: rest))
              = g :: List.filter
                (fun g' => decide (pyLower g' ∉ acc.map pyLower)) rest := by
            rw [List.filter_cons_of_pos (by simpa using hmem)]
          rw [hstep, hfilter]
          have hcongr : List.filter
              (fun g' => decide (pyLower g' ∉ (acc ++ [g]).map pyLower)) rest
              = List.filter
                (fun g' => decide (pyLower g' ∉ acc.map pyLower)) rest := by
            apply List.filter_congr
            intro g' hg'
            have hne : pyLower g' ≠ pyLower g := by
              intro heq
              exact hnd.1 (heq ▸ List.mem_map_of_mem pyLower hg')
            apply decide_eq_decide.mpr
            rw [List.map_append]
            simp only [List.map_cons, List.map_nil, List.mem_append,
              List.mem_singleton]
            constructor
            · intro hn hmem'
              exact hn (Or.inl hmem')
            · intro hn hmem'
              rcases hmem' with hmem' | hmem'
              · exact hn hmem'
              · exact hne hmem'
          have := ih hnd.2 (acc ++ [g])
          rw [hcongr] at this
          rw [List.length_append] at this
          simp only [List.length_cons, List.length_nil] at this ⊢
          omega
        · have hstep : genStep acc g = acc := by
            unfold genStep
            rw [if_neg (by intro hc; exact hlen hc.2)]
          rw [hstep]
          have hm := foldl_genStep_mono rest acc
          omega

theorem genericTags_count_ge (acc : List PyStr) :
    5 ≤ acc.length +
      (genericTags.filter fun g => decide (pyLower g ∉ acc.map pyLower)).length
    := by
  have hsplit := List.length_eq_length_filter_add
    (l := genericTags) (fun g => decide (pyLower g ∉ acc.map pyLower))
  have hlen5 : genericTags.length = 5 := rfl
  have hexcl : (genericTags.filter fun g =>
      !(decide (pyLower g ∉ acc.map pyLower))).length ≤ acc.length := by
    set excl := genericTags.filter fun g =>
      !(decide (pyLower g ∉ acc.map pyLower)) with hexcl_def
    have hsub : excl.Sublist genericTags := List.filter_sublist _
    have hnd : (excl.map pyLower).Nodup := by
      refine List.Nodup.sublist (hsub.map pyLower) ?_
      decide
    have hsubset : ∀ x ∈ excl.map pyLower, x ∈ acc.map pyLower := by
      intro x hx
      rcases List.mem_map.mp hx with ⟨g, hg, rfl⟩
      have := List.of_mem_filter (p := fun g =>
        !(decide (pyLower g ∉ acc.map pyLower))) hg
      simpa using this
    calc excl.length = (excl.map pyLower).length := (List.length_map _ _).symm
      _ = (excl.map pyLower).toFinset.card :=
          (List.toFinset_card_of_nodup hnd).symm
      _ ≤ (acc.map pyLower).toFinset.card := by
          apply Finset.card_le_card
          intro x hx
          rw [List.mem_toFinset] at hx ⊢
          exact hsubset x hx
      _ ≤ (acc.map pyLower).length := List.toFinset_card_le _
      _ = acc.length := List.length_map _ _
  omega

theorem validateText_hashtags_eq (t c : PyStr) (h : List PyStr) :
    (validateText t c h).hashtags =
      (if 12 < (cleanTags h).length then (cleanTags h).take 12
       else if (cleanTags h).length < 5 then addGenerics (cleanTags h)
       else cleanTags h) := rfl

theorem finalTags_bounds (h : List PyStr) :
    5 ≤ (if 12 < (cleanTags h).length then (cleanTags h).take 12
        else if (cleanTags h).length < 5 then addGenerics (cleanTags h)
        else cleanTags h).length ∧
    (if 12 < (cleanTags h).length then (cleanTags h).take 12
        else if (cleanTags h).length < 5 then addGenerics (cleanTags h)
        else cleanTags h).length ≤ 12 ∧
    ((if 12 < (cleanTags h).length then (cleanTags h).take 12
        else if (cleanTags h).length < 5 then addGenerics (cleanTags h)
        else cleanTags h).map pyLower).Nodup := by
  by_cases h12 : 12 < (cleanTags h).length
  · rw [if_pos h12]
    have hlen : ((cleanTags h).take 12).length = 12 := by
      rw [List.length_take]
      omega
    refine ⟨by omega, by omega, ?_⟩
    exact List.Nodup.sublist ((List.take_sublist 12 _).map pyLower)
      (cleanTags_nodup h)
  · rw [if_neg h12]
    by_cases h5 : (cleanTags h).length < 5
    · rw [if_pos h5]
      have hge := foldl_genStep_ge genericTags (by decide) (cleanTags h)
      have hcnt := genericTags_count_ge (cleanTags h)
      have hle := foldl_genStep_le genericTags (cleanTags h)
      refine ⟨by unfold addGenerics; omega, by unfold addGenerics; omega, ?_⟩
      exact foldl_genStep_nodup genericTags (cleanTags h) (cleanTags_nodup h)
    · rw [if_neg h5]
      exact ⟨by omega, by omega, cleanTags_nodup h⟩

/-- C2: for every title, caption and hashtag-list input, the hashtag list
returned by `validate_text` (the list consumed as
`ValidatedCandidate.validated.hashtags`) has length at least 5 and at most
12 and contains no two entries that are equal case-insensitively. -/
theorem claim_c2 (t c : PyStr) (h : List PyStr) :
    5 ≤ (validateText t c h).hashtags.length ∧
    (validateText t c h).hashtags.length ≤ 12 ∧
    ((validateText t c h).hashtags.map pyLower).Nodup := by
  rw [validateText_hashtags_eq]
  exact finalTags_bounds h

theorem dropWhile_head_false (p : Char → Bool) :
    ∀ (l : PyStr) (c : Char), (l.dropWhile p).head? = some c → p c = false := by
  intro l
  induction l with
  | nil => intro c hc; cases hc
  | cons a rest ih =>
      intro c hc
      rw [List.dropWhile_cons] at hc
      by_cases ha : p a
      · rw [if_pos ha] at hc
        exact ih c hc
      · rw [if_neg ha] at hc
        rw [List.head?_cons, Option.some_inj] at hc
        subst hc
        simpa using ha

theorem dropWhile_eq_self (p : Char → Bool) (l : PyStr)
    (h : ∀ c, l.head? = some c → p c = false) : l.dropWhile p = l := by
  cases l with
  | nil => rfl
  | cons a rest =>
      rw [List.dropWhile_cons, if_neg]
      rw [h a rfl]
      simp

theorem pyStrip_head (s : PyStr) :
    ∀ c, (pyStrip s).head? = some c → isPySpace c = false := by
  intro c hc
  unfold pyStrip at hc
  have hsplit := List.takeWhile_append_dropWhile (p := isPySpace)
    (l := (s.dropWhile isPySpace).reverse)
  have hA : s.dropWhile isPySpace =
      ((s.dropWhile isPySpace).reverse.dropWhile isPySpace).reverse ++
      ((s.dropWhile isPySpace).reverse.takeWhile isPySpace).reverse := by
    have := congrArg List.reverse hsplit
    rw [List.reverse_append, List.reverse_reverse] at this
    exact this.symm
  have hhead : (s.dropWhile isPySpace).head? = some c := by
    rw [hA, List.head?_append, hc]
    rfl
  exact dropWhile_head_false isPySpace s c hhead

theorem pyStrip_getLast (s : PyStr) :
    ∀ c, (pyStrip s).getLast? = some c → isPySpace c = false := by
  intro c hc
  unfold pyStrip at hc
  rw [List.getLast?_reverse] at hc
  exact dropWhile_head_false isPySpace _ c hc

theorem pyStrip_eq_self (l : PyStr)
    (h1 : ∀ c, l.head? = some c → isPySpace c = false)
    (h2 : ∀ c, l.getLast? = some c → isPySpace c = false) :
    pyStrip l = l := by
  unfold pyStrip
  rw [dropWhile_eq_self isPySpace l h1]
  rw [dropWhile_eq_self isPySpace l.reverse
    (fun c hc => h2 c (by rwa [List.head?_reverse] at hc))]
  exact List.reverse_reverse l

theorem pyStrip_idem (s : PyStr) : pyStrip (pyStrip s) = pyStrip s :=
  pyStrip_eq_self (pyStrip s) (pyStrip_head s) (pyStrip_getLast s)

theorem pyStrip_length_le (s : PyStr) : (pyStrip s).length ≤ s.length := by
  unfold pyStrip
  rw [List.length_reverse]
  calc ((s.dropWhile isPySpace).reverse.dropWhile isPySpace).length
      ≤ (s.dropWhile isPySpace).reverse.length :=
        (List.dropWhile_sublist _).length_le
    _ = (s.dropWhile isPySpace).length := List.length_reverse _
    _ ≤ s.length := (List.dropWhile_sublist _).length_le

theorem validateText_title (t c : PyStr) (h : List PyStr) :
    (validateText t c h).title =
      if 60 < (pyStrip t).length then (pyStrip t).take 60 else pyStrip t := rfl

theorem validateText_caption (t c : PyStr) (h : List PyStr) :
    (validateText t c h).caption =
      if 2200 < (pyStrip c).length then (pyStrip c).take 2200
      else pyStrip c := rfl

theorem validateText_issues (t c : PyStr) (h : List PyStr) :
    (validateText t c h).issues =
      ((((if 60 < (pyStrip t).length
          then [pys "Title truncated to 60 chars"] else []) ++
         (if 2200 < (pyStrip c).length
          then [pys "Caption truncated to 2200 chars"] else [])) ++
        (if 50 * emojiRuns (if 2200 < (pyStrip c).length
              then (pyStrip c).take 2200 else pyStrip c) >
            (if 2200 < (pyStrip c).length
              then (pyStrip c).take 2200 else pyStrip c).length
         then [pys "High emoji density"] else [])) ++
       (if 12 < (cleanTags h).length then [pys "Hashtags limited to 12"]
        else if (cleanTags h).length < 5
        then [pys "Added generic hashtags to meet minimum of 5"] else [])) ++
      (if bannedDetected (if 2200 < (pyStrip c).length
            then (pyStrip c).take 2200 else pyStrip c)
       then [pys "Potentially inappropriate content detected"] else []) := rfl

theorem validateText_title_length (t c : PyStr) (h : List PyStr) :
    (validateText t c h).title.length ≤ 60 := by
  rw [validateText_title]
  by_cases h60 : 60 < (pyStrip t).length
  · rw [if_pos h60]
    exact List.length_take_le _ _
  · rw [if_neg h60]
    omega

theorem validateText_caption_length (t c : PyStr) (h : List PyStr) :
    (validateText t c h).caption.length ≤ 2200 := by
  rw [validateText_caption]
  by_cases h22 : 2200 < (pyStrip c).length
  · rw [if_pos h22]
    exact List.length_take_le _ _
  · rw [if_neg h22]
    omega

theorem validateText_hashtags_P (t c : PyStr) (h : List PyStr) :
    ∀ x ∈ (validateText t c h).hashtags, cleanTag x = x ∧ 1 < x.length := by
  rw [validateText_hashtags_eq]
  by_cases h12 : 12 < (cleanTags h).length
  · rw [if_pos h12]
    exact fun x hx => cleanTags_P h x ((List.take_sublist 12 _).mem hx)
  · rw [if_neg h12]
    by_cases h5 : (cleanTags h).length < 5
    · rw [if_pos h5]
      exact foldl_genStep_P genericTags (cleanTags h) (cleanTags_P h)
        (by decide)
    · rw [if_neg h5]
      exact cleanTags_P h

theorem if_singleton_eq_nil {α : Type} {cond : Prop} [Decidable cond]
    {x : α} (h : (if cond then [x] else []) = []) : ¬cond := by
  intro hc
  rw [if_pos hc] at h
  cases h

theorem if_if_singleton_eq_nil {α : Type} {c1 c2 : Prop}
    [Decidable c1] [Decidable c2] {x y : α}
    (h : (if c1 then [x] else if c2 then [y] else []) = []) : ¬c1 ∧ ¬c2 := by
  by_cases h1 : c1
  · rw [if_pos h1] at h
    cases h
  · rw [if_neg h1] at h
    exact ⟨h1, if_singleton_eq_nil h⟩

/-- C4 (amended): `validate_text` is idempotent on hashtags
unconditionally — running it again on its own output returns the same
hashtag list — and on title and caption up to stripping whitespace: the
second run returns `strip` of the first run's title and caption, which are
unchanged whenever the first run carried no trailing whitespace, in
particular whenever the stripped input did not need truncation (truncation
at the 60/2200-character boundary can cut right after a space, and only
then does the second run differ).  Inputs whose first validation reports
no issues are exact fixed points, and the second run reports no issues on
them. -/
theorem claim_c4 (t c : PyStr) (h : List PyStr) :
    let r1 := validateText t c h
    let r2 := validateText r1.title r1.caption r1.hashtags
    r2.hashtags = r1.hashtags ∧
    r2.title = pyStrip r1.title ∧
    r2.caption = pyStrip r1.caption ∧
    ((pyStrip t).length ≤ 60 → r2.title = r1.title) ∧
    ((pyStrip c).length ≤ 2200 → r2.caption = r1.caption) ∧
    (r1.issues = [] →
      r2.title = r1.title ∧ r2.caption = r1.caption ∧ r2.issues = []) := by
  intro r1 r2
  have hbounds : 5 ≤ r1.hashtags.length ∧ r1.hashtags.length ≤ 12 ∧
      (r1.hashtags.map pyLower).Nodup := claim_c2 t c h
  have hP : ∀ x ∈ r1.hashtags, cleanTag x = x ∧ 1 < x.length :=
    validateText_hashtags_P t c h
  have hfix : cleanTags r1.hashtags = r1.hashtags :=
    cleanTags_fixed r1.hashtags hbounds.2.2 hP
  have hhash : r2.hashtags = r1.hashtags := by
    rw [show r2.hashtags = (validateText r1.title r1.caption
      r1.hashtags).hashtags from rfl]
    rw [validateText_hashtags_eq, hfix]
    rw [if_neg (by omega), if_neg (by omega)]
  have htitle : r2.title = pyStrip r1.title := by
    rw [show r2.title = (validateText r1.title r1.caption
      r1.hashtags).title from rfl]
    rw [validateText_title]
    rw [if_neg (by
      have h1 := pyStrip_length_le r1.title
      have h2 : r1.title.length ≤ 60 := validateText_title_length t c h
      omega)]
  have hcaption : r2.caption = pyStrip r1.caption := by
    rw [show r2.caption = (validateText r1.title r1.caption
      r1.hashtags).caption from rfl]
    rw [validateText_caption]
    rw [if_neg (by
      have h1 := pyStrip_length_le r1.caption
      have h2 : r1.caption.length ≤ 2200 := validateText_caption_length t c h
      omega)]
  have htfix : (pyStrip t).length ≤ 60 → r2.title = r1.title := by
    intro h60
    have ht1 : r1.title = pyStrip t := by
      rw [show r1.title = (validateText t c h).title from rfl,
        validateText_title, if_neg (by omega)]
    rw [htitle, ht1, pyStrip_idem]
  have hcfix : (pyStrip c).length ≤ 2200 → r2.caption = r1.caption := by
    intro h22
    have hc1 : r1.caption = pyStrip c := by
      rw [show r1.caption = (validateText t c h).caption from rfl,
        validateText_caption, if_neg (by omega)]
    rw [hcaption, hc1, pyStrip_idem]
  refine ⟨hhash, htitle, hcaption, htfix, hcfix, ?_⟩
  intro hiss
  rw [show r1.issues = (validateText t c h).issues from rfl,
    validateText_issues] at hiss
  rw [List.append_eq_nil] at hiss
  obtain ⟨hiss, hban⟩ := hiss
  rw [List.append_eq_nil] at hiss
  obtain ⟨hiss, htags⟩ := hiss
  rw [List.append_eq_nil] at hiss
  obtain ⟨hiss, hemoji⟩ := hiss
  rw [List.append_eq_nil] at hiss
  obtain ⟨hT, hC⟩ := hiss
  have hT' := if_singleton_eq_nil hT
  have hC' := if_singleton_eq_nil hC
  have hE' := if_singleton_eq_nil hemoji
  have hB' := if_singleton_eq_nil hban
  obtain ⟨h12', h5'⟩ := if_if_singleton_eq_nil htags
  refine ⟨htfix (by omega), hcfix (by omega), ?_⟩
  have ht1 : r1.title = pyStrip t := by
    rw [show r1.title = (validateText t c h).title from rfl,
      validateText_title, if_neg hT']
  have hc1 : r1.caption = pyStrip c := by
    rw [show r1.caption = (validateText t c h).caption from rfl,
      validateText_caption, if_neg hC']
  have hh1 : r1.hashtags = cleanTags h := by
    rw [show r1.hashtags = (validateText t c h).hashtags from rfl,
      validateText_hashtags_eq, if_neg h12', if_neg h5']
  have hstrip_t : pyStrip r1.title = pyStrip t := by rw [ht1, pyStrip_idem]
  have hstrip_c : pyStrip r1.caption = pyStrip c := by rw [hc1, pyStrip_idem]
  rw [show r2.issues = (validateText r1.title r1.caption
    r1.hashtags).issues from rfl, validateText_issues]
  rw [if_neg hC'] at hE' hB'
  rw [hstrip_t, hstrip_c, hfix, hh1]
  rw [if_neg hT', if_neg hC', if_neg hC']
  rw [if_neg hE', if_neg h12', if_neg h5', if_neg hB']
  rfl

/-- C4 counterexample: the claim states that `validate_text` applied a
second time to its own output yields the same title.  It does not: a
61-character stripped title whose 60th character is a space is truncated
to a title ending in that space, and the second application's `strip`
removes it — the two titles differ. -/
theorem claim_c4_counterexample :
    (validateText
        (validateText cexTitle [] []).title
        (validateText cexTitle [] []).caption
        (validateText cexTitle [] []).hashtags).title ≠
      (validateText cexTitle [] []).title := by
  decide

/-- C4 witness: on a clean input the second application reproduces the
first's title, caption and hashtags exactly, with an empty issue list. -/
theorem claim_c4_witness :
    (validateText
        (validateText (pys "Hello") (pys "Great level design") genericTags).title
        (validateText (pys "Hello") (pys "Great level design") genericTags).caption
        (validateText (pys "Hello") (pys "Great level design") genericTags).hashtags).title
      = (validateText (pys "Hello") (pys "Great level design")
          genericTags).title ∧
    (validateText
        (validateText (pys "Hello") (pys "Great level design") genericTags).title
        (validateText (pys "Hello") (pys "Great level design") genericTags).caption
        (validateText (pys "Hello") (pys "Great level design") genericTags).hashtags).caption
      = (validateText (pys "Hello") (pys "Great level design")
          genericTags).caption ∧
    (validateText
        (validateText (pys "Hello") (pys "Great level design") genericTags).title
        (validateText (pys "Hello") (pys "Great level design") genericTags).caption
        (validateText (pys "Hello") (pys "Great level design") genericTags).hashtags).issues
      = [] := by
  have h4 := claim_c4 (pys "Hello") (pys "Great level design") genericTags
  have hiss := h4.2.2.2.2.2 (by decide)
  exact ⟨hiss.1, hiss.2.1, hiss.2.2⟩

theorem foldl_dedup_append (l : List PyStr) :
    ∀ acc : List PyStr, ∃ ex : List PyStr,
      l.foldl (fun acc tag => if tag ∈ acc then acc else acc ++ [tag]) acc
        = acc ++ ex ∧ ∀ x ∈ ex, x ∈ l ∧ x ∉ acc := by
  induction l with
  | nil =>
      intro acc
      exact ⟨[], by simp, by simp⟩
  | cons t rest ih =>
      intro acc
      rw [List.foldl_cons]
      by_cases ht : t ∈ acc
      · rw [if_pos ht]
        obtain ⟨ex, heq, hex⟩ := ih acc
        exact ⟨ex, heq, fun x hx =>
          ⟨List.mem_cons_of_mem t (hex x hx).1, (hex x hx).2⟩⟩
      · rw [if_neg ht]
        obtain ⟨ex, heq, hex⟩ := ih (acc ++ [t])
        refine ⟨t :: ex, by rw [heq, List.append_assoc]; rfl, ?_⟩
        intro x hx
        rcases List.mem_cons.mp hx with rfl | hx'
        · exact ⟨List.mem_cons_self _ _, ht⟩
        · obtain ⟨hx1, hx2⟩ := hex x hx'
          exact ⟨List.mem_cons_of_mem t hx1,
            fun hmem => hx2 (List.mem_append_left _ hmem)⟩

/-- C6 counterexample: the claim states that every output tag matching the
top-10 trend hashtags case-insensitively precedes every niche/brand/general
output tag.  Trend matches beyond the third are not placed in the leading
block: they fall through to the final catch-all loop and are appended after
the general tags.  With four trending tags and one general tag, the fourth
trend match `"#d"` comes after the general `"#e"`. -/
theorem claim_c6_counterexample :
    rankHashtags [pys "#a", pys "#b", pys "#c", pys "#d", pys "#e"]
        (some [pys "#a", pys "#b", pys "#c", pys "#d"]) =
      [pys "#a", pys "#b", pys "#c", pys "#e", pys "#d"] ∧
    isTrendTag (((some [pys "#a", pys "#b", pys "#c",
        pys "#d"]).getD []).take 10) (pys "#d") = true ∧
    isTrendTag (((some [pys "#a", pys "#b", pys "#c",
        pys "#d"]).getD []).take 10) (pys "#e") = false := by
  decide

/-- C6 (amended): `rank_hashtags` returns at most 12 tags, all drawn from
the input list (no new tags introduced), and, whenever the input contains
at most 3 tags that case-insensitively match the top-10 trend hashtags,
every trend-matching output tag precedes every niche/brand/general output
tag (the output splits as a trend-matching prefix followed by a
non-matching suffix).  With 4 or more trend matches the matches beyond the
third are appended after the general tags instead. -/
theorem claim_c6 (hashtags : List PyStr) (trendTags : Option (List PyStr)) :
    let isT := isTrendTag ((trendTags.getD []).take 10)
    let out := rankHashtags hashtags trendTags
    out.length ≤ 12 ∧
    (∀ x ∈ out, x ∈ hashtags) ∧
    ((hashtags.filter fun tag => isT tag).length ≤ 3 →
      ∃ u v, out = u ++ v ∧ (∀ x ∈ u, isT x = true) ∧
        (∀ x ∈ v, isT x = false)) := by
  intro isT out
  have hout : out =
      (hashtags.foldl
        (fun acc tag => if tag ∈ acc then acc else acc ++ [tag])
        ((((hashtags.filter fun t => isT t).take 3 ++
          ((hashtags.filter fun t =>
              ¬isT t ∧ ¬isBrandTag t ∧ isNicheTag t).filter
            (· ∉ (hashtags.filter fun t => isT t).take 3)).take 2) ++
          ((hashtags.filter fun t => ¬isT t ∧ isBrandTag t).filter
            (· ∉ ((hashtags.filter fun t => isT t).take 3 ++
              ((hashtags.filter fun t =>
                  ¬isT t ∧ ¬isBrandTag t ∧ isNicheTag t).filter
                (· ∉ (hashtags.filter fun t => isT t).take 3)).take 2))).take 2)
          ++ ((hashtags.filter fun t =>
              ¬isT t ∧ ¬isBrandTag t ∧ ¬isNicheTag t).filter
            (· ∉ (((hashtags.filter fun t => isT t).take 3 ++
              ((hashtags.filter fun t =>
                  ¬isT t ∧ ¬isBrandTag t ∧ isNicheTag t).filter
                (· ∉ (hashtags.filter fun t => isT t).take 3)).take 2) ++
              ((hashtags.filter fun t => ¬isT t ∧ isBrandTag t).filter
                (· ∉ ((hashtags.filter fun t => isT t).take 3 ++
                  ((hashtags.filter fun t =>
                      ¬isT t ∧ ¬isBrandTag t ∧ isNicheTag t).filter
                    (· ∉ (hashtags.filter fun t =>
                      isT t).take 3)).take 2))).take 2))))).take 12 := rfl
  set trendL := hashtags.filter fun t => isT t with htrendL
  set nicheQ := ((hashtags.filter fun t =>
      ¬isT t ∧ ¬isBrandTag t ∧ isNicheTag t).filter
    (· ∉ trendL.take 3)).take 2 with hnicheQ
  set brandQ := ((hashtags.filter fun t => ¬isT t ∧ isBrandTag t).filter
    (· ∉ (trendL.take 3 ++ nicheQ))).take 2 with hbrandQ
  set generalQ := (hashtags.filter fun t =>
      ¬isT t ∧ ¬isBrandTag t ∧ ¬isNicheTag t).filter
    (· ∉ ((trendL.take 3 ++ nicheQ) ++ brandQ)) with hgeneralQ
  have hout2 : out =
      (hashtags.foldl
        (fun acc tag => if tag ∈ acc then acc else acc ++ [tag])
        (((trendL.take 3 ++ nicheQ) ++ brandQ) ++ generalQ)).take 12 := hout
  obtain ⟨ex, hex_eq, hex⟩ := foldl_dedup_append hashtags
    (((trendL.take 3 ++ nicheQ) ++ brandQ) ++ generalQ)
  rw [hex_eq] at hout2
  have hsub_trend : ∀ x ∈ trendL.take 3, x ∈ hashtags := fun x hx =>
    List.mem_of_mem_filter ((List.take_sublist _ _).mem hx)
  have hsub_niche : ∀ x ∈ nicheQ, x ∈ hashtags := fun x hx =>
    List.mem_of_mem_filter
      (List.mem_of_mem_filter ((List.take_sublist _ _).mem hx))
  have hsub_brand : ∀ x ∈ brandQ, x ∈ hashtags := fun x hx =>
    List.mem_of_mem_filter
      (List.mem_of_mem_filter ((List.take_sublist _ _).mem hx))
  have hsub_general : ∀ x ∈ generalQ, x ∈ hashtags := fun x hx =>
    List.mem_of_mem_filter (List.mem_of_mem_filter hx)
  refine ⟨?_, ?_, ?_⟩
  · rw [hout2]
    exact List.length_take_le _ _
  · intro x hx
    rw [hout2] at hx
    have hx' := (List.take_sublist _ _).mem hx
    rcases List.mem_append.mp hx' with hx'' | hx''
    · rcases List.mem_append.mp hx'' with hx3 | hx3
      · rcases List.mem_append.mp hx3 with hx4 | hx4
        · rcases List.mem_append.mp hx4 with hx5 | hx5
          · exact hsub_trend x hx5
          · exact hsub_niche x hx5
        · exact hsub_brand x hx4
      · exact hsub_general x hx3
    · exact (hex x hx'').1
  · intro hcnt
    have htake3 : trendL.take 3 = trendL :=
      List.take_of_length_le hcnt
    have htrend_true : ∀ x ∈ trendL, isT x = true := by
      intro x hx
      exact List.of_mem_filter hx
    have hniche_false : ∀ x ∈ nicheQ, isT x = false := by
      intro x hx
      have := List.of_mem_filter
        ((List.take_sublist _ _).mem hx : x ∈ List.filter _ _)
      have h2 := List.of_mem_filter (List.mem_of_mem_filter
        ((List.take_sublist _ _).mem hx))
      simp only [decide_eq_true_eq] at h2
      simpa using h2.1
    have hbrand_false : ∀ x ∈ brandQ, isT x = false := by
      intro x hx
      have h2 := List.of_mem_filter (List.mem_of_mem_filter
        ((List.take_sublist _ _).mem hx))
      simp only [decide_eq_true_eq] at h2
      simpa using h2.1
    have hgeneral_false : ∀ x ∈ generalQ, isT x = false := by
      intro x hx
      have h2 := List.of_mem_filter (List.mem_of_mem_filter hx)
      simp only [decide_eq_true_eq] at h2
      simpa using h2.1
    have hex_false : ∀ x ∈ ex, isT x = false := by
      intro x hx
      obtain ⟨hx1, hx2⟩ := hex x hx
      by_cases hxT : isT x
      · exfalso
        apply hx2
        have : x ∈ trendL := List.mem_filter.mpr ⟨hx1, hxT⟩
        rw [← htake3] at this
        exact List.mem_append_left _
          (List.mem_append_left _ (List.mem_append_left _ this))
      · simpa using hxT
    have hassoc : (((trendL.take 3 ++ nicheQ) ++ brandQ) ++ generalQ) ++ ex
        = trendL ++ (nicheQ ++ (brandQ ++ (generalQ ++ ex))) := by
      rw [htake3]
      simp [List.append_assoc]
    rw [hout2, hassoc]
    have hlen3 : trendL.length ≤ 12 := by omega
    rw [List.take_append_eq_append_take, List.take_of_length_le hlen3]
    refine ⟨trendL, _, rfl, htrend_true, ?_⟩
    intro x hx
    have hx' := (List.take_sublist _ _).mem hx
    rcases List.mem_append.mp hx' with hx1 | hx1
    · exact hniche_false x hx1
    rcases List.mem_append.mp hx1 with hx2 | hx2
    · exact hbrand_false x hx2
    rcases List.mem_append.mp hx2 with hx3 | hx3
    · exact hgeneral_false x hx3
    · exact hex_false x hx3

/-- C6 witness: with a single trending tag and one general tag, the output
splits into the trend-matching prefix and the non-matching rest. -/
theorem claim_c6_witness :
    (rankHashtags [pys "#a", pys "#b"] (some [pys "#a"])).length ≤ 12 ∧
    (∀ x ∈ rankHashtags [pys "#a", pys "#b"] (some [pys "#a"]),
      x ∈ [pys "#a", pys "#b"]) ∧
    ∃ u v, rankHashtags [pys "#a", pys "#b"] (some [pys "#a"]) = u ++ v ∧
      (∀ x ∈ u, isTrendTag (((some [pys "#a"]).getD []).take 10) x = true) ∧
      (∀ x ∈ v, isTrendTag (((some [pys "#a"]).getD []).take 10) x = false)
    := by
  have h := claim_c6 [pys "#a", pys "#b"] (some [pys "#a"])
  exact ⟨h.1, h.2.1, h.2.2 (by decide)⟩
